import Mathlib

/-!
Verification development for the `py_cli_shell` repository.

The definitions below are a shallow embedding of `src/cli_shell.py`.
Pure string manipulation is translated to Lean functions over `String` /
`List Char`; the mutable `CommandShell` object becomes an explicit
`ShellState` that every operation threads through; printing becomes an
explicit `List String` of emitted lines (purely decorative prints such as
blank separator lines and prompt re-echoes are elided, and the exact
argparse usage/help text is abbreviated to a single line per message —
the content-bearing messages are kept verbatim).

The filesystem that `os.listdir` / `os.path.isdir` consult is modelled as
an explicit tree (`FsNode`) rooted at the machine root, together with the
process working directory, so that relative paths such as `cmd/../..`
resolve exactly as `os.path` resolves them (lexical normalisation of `.`
and `..`; symlinks are not modelled, and intermediate components of a
probed path are assumed to exist, which holds in every world used here).
-/

namespace CliShell

/-! ### Python string primitives -/

/-- The whitespace characters recognised by Python's `str.split()` /
`str.strip()` for the ASCII inputs that occur in the shell. -/
def isSpaceChar (c : Char) : Bool :=
  c = ' ' || c = '\t' || c = '\n' || c = '\r' || c = '\x0b' || c = '\x0c'

/-- Split a character list at every character satisfying `p`, keeping empty
groups (the helper underlying both `str.split()` and path splitting). -/
def splitChars (p : Char → Bool) : List Char → List (List Char)
  | [] => [[]]
  | c :: cs =>
    let r := splitChars p cs
    if p c then [] :: r
    else
      match r with
      | [] => [[c]]
      | g :: gs => (c :: g) :: gs

/-- Python `s.split()`: split on whitespace runs, dropping empty tokens. -/
def pySplit (s : String) : List String :=
  ((splitChars isSpaceChar s.toList).map String.mk).filter (· ≠ "")

/-- Python `s.strip()`. -/
def pyStrip (s : String) : String :=
  String.mk (((s.toList.dropWhile isSpaceChar).reverse.dropWhile isSpaceChar).reverse)

/-- Python `s.lstrip()`. -/
def pyLStrip (s : String) : String :=
  String.mk (s.toList.dropWhile isSpaceChar)

/-- Python `s.startswith(pre)`. -/
def strStartsWith (s pre : String) : Bool :=
  pre.toList.isPrefixOf s.toList

/-- Python `s.endswith(suf)`. -/
def strEndsWith (s suf : String) : Bool :=
  suf.toList.isSuffixOf s.toList

/-- Join character groups with a separator character (`sep.join` at the
character level). -/
def joinWith (sep : Char) : List (List Char) → List Char
  | [] => []
  | [g] => g
  | g :: gs => g ++ sep :: joinWith sep gs

/-- Python `' '.join(l)`. -/
def unwords (l : List String) : String :=
  String.mk (joinWith ' ' (l.map String.toList))

/-- Lexicographic `≤` on character lists by code point, as Python compares
strings. -/
def charsLe : List Char → List Char → Bool
  | [], _ => true
  | _ :: _, [] => false
  | a :: as, b :: bs =>
    if a.toNat < b.toNat then true
    else if b.toNat < a.toNat then false
    else charsLe as bs

/-- Python's string `≤`. -/
def strLe (a b : String) : Bool := charsLe a.toList b.toList

/-- Insert into a `strLe`-sorted list, keeping it sorted. -/
def insertSorted (s : String) : List String → List String
  | [] => [s]
  | t :: ts => if strLe s t then s :: t :: ts else t :: insertSorted s ts

/-- Python `sorted(l)` for strings (stable ascending sort). -/
def sortStrings (l : List String) : List String := l.foldr insertSorted []

/-- Test that `l` is in ascending order (each adjacent pair satisfies `strLe`). -/
def isSortedB : List String → Bool
  | [] => true
  | [_] => true
  | a :: b :: rest => strLe a b && isSortedB (b :: rest)

/-- Longest common prefix of two character lists. -/
def lcpChars : List Char → List Char → List Char
  | a :: as, b :: bs => if a = b then a :: lcpChars as bs else []
  | _, _ => []

/-- Model of `os.path.commonprefix`: the longest string prefix common to every list
element (empty list gives the empty string). -/
def commonPrefixAll : List String → String
  | [] => ""
  | [s] => s
  | s :: rest => String.mk (lcpChars s.toList (commonPrefixAll rest).toList)

/-! ### Paths and the model filesystem -/

/-- Split a path string on `/` (keeping empty components, as
`str.split('/')` would). -/
def splitSlash (s : String) : List String :=
  (splitChars (· = '/') s.toList).map String.mk

/-- Rebuild a path from components (inverse of `splitSlash` on normal
slash-separated paths). -/
def joinPath (gs : List String) : String :=
  String.mk (joinWith '/' (gs.map String.toList))

/-- Model of `os.path.join(a, b)` for the paths the shell builds: an absolute `b`
replaces `a`, otherwise the two are joined with a single `/`. -/
def pathJoin (a b : String) : String :=
  if strStartsWith b "/" then b else a ++ "/" ++ b

/-- Model of `os.path.dirname` for normal slash-separated paths: drop the last
component (`dirname "cmd" = ""`, `dirname "cmd/test" = "cmd"`). -/
def dirnameStr (p : String) : String :=
  joinPath ((splitSlash p).dropLast)

/-- Lexically resolve path components against a base, as `os.path.abspath`
normalises `.` and `..` (`..` at the root stays at the root, per POSIX). -/
def normJoin (base : List String) : List String → List String
  | [] => base
  | c :: rest =>
    if c = ".." then normJoin base.dropLast rest
    else if c = "." || c = "" then normJoin base rest
    else normJoin (base ++ [c]) rest

/-- Outcome of an argparse `parse_args` call on a leaf command's parser:
argparse either prints the full help and raises `SystemExit` (`-h`),
prints a usage error and raises `SystemExit`, or succeeds. The parsed
namespace itself is a function of the raw tokens and is left abstract. -/
inductive ParseResult where
  | help
  | error (msg : String)
  | ok
deriving DecidableEq

/-- Outcome of a leaf module's `execute(args)`: either it prints some
lines, or it raises an exception with a message (caught by the
dispatcher). -/
inductive ExecResult where
  | out (lines : List String)
  | exc (msg : String)

/-- A loaded leaf command module: its parser's description, its option
flag strings in declaration order (argparse puts the automatic
`-h`/`--help` first), the parser's full help text (abbreviated to one
line), the behaviour of `parse_args` and of `execute` on the raw argument
tokens. -/
structure Cmd where
  description : String
  optionStrings : List String
  helpText : String
  parse : List String → ParseResult
  exec : List String → ExecResult

/-- A directory on the model machine: its `cmd_*.py` command files (name
stripped of prefix/suffix, paired with the loaded module) and its
subdirectories, each in `os.listdir` order (`__pycache__` is already
excluded, as the source filters it everywhere). -/
inductive FsNode where
  | node (files : List (String × Cmd)) (dirs : List (String × FsNode))

def FsNode.files : FsNode → List (String × Cmd)
  | .node fs _ => fs

def FsNode.dirs : FsNode → List (String × FsNode)
  | .node _ ds => ds

/-- The machine: the filesystem from the root directory, and the absolute
components of the process working directory (the directory containing the
`cmd` tree, from which the shell is started). -/
structure World where
  root : FsNode
  cwd : List String

/-- Model of `os.path.abspath(p)` as components: lexical normalisation of the path
joined to the working directory. -/
def absOf (w : World) (p : String) : List String :=
  if strStartsWith p "/" then normJoin [] (splitSlash p)
  else normJoin w.cwd (splitSlash p)

/-- Walk absolute components down the filesystem. -/
def lookupDir : FsNode → List String → Option FsNode
  | n, [] => some n
  | n, c :: rest =>
    match n.dirs.lookup c with
    | some n' => lookupDir n' rest
    | none => none

/-- The directory node a relative path denotes, if any. -/
def dirAt (w : World) (p : String) : Option FsNode :=
  lookupDir w.root (absOf w p)

/-- Model of `os.path.isdir(p)`. -/
def isdir (w : World) (p : String) : Bool :=
  (dirAt w p).isSome

/-! ### The shell state and the command snapshot -/

/-- An entry of the `self.commands` dict: the built-in `info`, the
built-in `cd` (present only when the current directory has
subdirectories), or a loaded leaf module. -/
inductive CmdEntry where
  | info
  | cd
  | leaf (c : Cmd)

/-- The parser description of an entry (the literal argparse descriptions
from `add_builtin_commands` / `create_cd_parser`). -/
def CmdEntry.description : CmdEntry → String
  | .info => "(built-in) Show information about commands in current directory"
  | .cd => "Change current directory"
  | .leaf c => c.description

/-- The option strings of an entry's parser, in action order (argparse's
automatic `-h`/`--help` first, then the declared options; `cd`'s
positional contributes none). -/
def CmdEntry.optionStrings : CmdEntry → List String
  | .info => ["-h", "--help", "-a", "--all", "-p", "--path"]
  | .cd => ["-h", "--help"]
  | .leaf c => c.optionStrings

/-- The mutable fields of `CommandShell` that the dispatch layer touches:
the current directory path (a relative path string rooted at `"cmd"`),
the loaded command snapshot in dict insertion order, and the batch-mode
flag. The model worlds give every dict key exactly once, matching the
source trees, so association-list lookup agrees with dict lookup. -/
structure ShellState where
  current_path : String
  commands : List (String × CmdEntry)
  is_batch_mode : Bool

/-- Model of `load_commands`: rebuild the snapshot for a directory — restore the
built-in `info`, add `cd` iff the directory has subdirectories, then load
each `cmd_*.py` file in listing order. (The source raises on a vanished
directory; states only ever hold valid paths, and the `none` arm is a
harmless total-function default.) -/
def load_commands (w : World) (path : String) : List (String × CmdEntry) :=
  match dirAt w path with
  | none => [("info", CmdEntry.info)]
  | some n =>
    ("info", CmdEntry.info)
      :: ((if n.dirs.isEmpty then [] else [("cd", CmdEntry.cd)])
        ++ n.files.map (fun f => (f.1, CmdEntry.leaf f.2)))

/-- Model of `get_available_dirs`: subdirectory names of the current directory, in
listing order. -/
def get_available_dirs (w : World) (st : ShellState) : List String :=
  (((dirAt w st.current_path).map FsNode.dirs).getD []).map Prod.fst

/-- Model of `get_command_names`: the snapshot's keys in insertion order. -/
def get_command_names (st : ShellState) : List String :=
  st.commands.map Prod.fst

/-- Model of `get_command_options`: the option strings of a named command, `[]`
when unknown. -/
def get_command_options (st : ShellState) (name : String) : List String :=
  match st.commands.lookup name with
  | some e => e.optionStrings
  | none => []

/-- Model of `get_partial_matches`: with empty text, all command names then all
directory names, unsorted; otherwise the matching command names followed
by the matching directory names, sorted. -/
def get_partial_matches (w : World) (st : ShellState) (text : String) : List String :=
  if text = "" then get_command_names st ++ get_available_dirs w st
  else
    sortStrings
      ((get_command_names st).filter (fun c => strStartsWith c text)
        ++ (get_available_dirs w st).filter (fun d => strStartsWith d text))

/-- The `Current directory: …` line `execute_cd` prints when not in batch
mode. -/
def currentDirMsg (st : ShellState) : List String :=
  if st.is_batch_mode then [] else ["Current directory: " ++ st.current_path]

/-- Model of `execute_cd`. For `".."` the path is clamped: it is only shortened
when its abspath differs from the abspath of the root `"cmd"` (the source
writes the same comparison with `!=`). For any other target the path
joined to the current path is probed with `os.path.isdir`; on success the
shell moves there and reloads the snapshot, on failure it reports
`Directory not found` and returns before touching any state. -/
def execute_cd (w : World) (st : ShellState) (target : String) : ShellState × List String :=
  if target = ".." then
    let moved :=
      if absOf w st.current_path = absOf w "cmd" then st
      else { st with current_path := dirnameStr st.current_path }
    ({ moved with commands := load_commands w moved.current_path }, currentDirMsg moved)
  else
    let newPath := pathJoin st.current_path target
    if isdir w newPath then
      let moved := { st with current_path := newPath }
      ({ moved with commands := load_commands w newPath }, currentDirMsg moved)
    else (st, ["Directory not found: " ++ target])

/-- Outcome of the `cd` parser (`create_cd_parser`): one optional
positional defaulting to `".."`; `-h`/`--help` prints help; an
unrecognised flag or extra positional is a usage error. -/
inductive CdParse where
  | help
  | error (msg : String)
  | ok (path : String)

def cdParse (args : List String) : CdParse :=
  if args.contains "-h" || args.contains "--help" then .help
  else
    match args with
    | [] => .ok ".."
    | [a] => if strStartsWith a "-" then .error a else .ok a
    | l => .error (unwords l)

/-- Outcome of the `info` parser: flags `-a` (`--all`), `-p` (`--path`), `-h`. -/
inductive InfoParse where
  | help
  | error (msg : String)
  | ok

def infoParse (args : List String) : InfoParse :=
  if args.contains "-h" || args.contains "--help" then .help
  else if args.all (fun a => a = "-a" || a = "--all" || a = "-p" || a = "--path") then .ok
  else .error (unwords args)

/-- The one-line stand-ins for argparse's multi-line help texts of the two
built-in parsers, and for `execute_info`'s listing (whose exact text no
claim depends on; `execute_info` reads the filesystem and mutates no
shell state, which is what the model keeps). -/
def cdHelpText : String := "usage: cd [-h] [path]"

def infoHelpText : String := "usage: info [-h] [-a] [-p]"

def infoOutput : List String := ["<info listing>"]

/-- Model of `execute_command`. A blank line returns immediately; `".."` and bare
names of existing subdirectories are navigation; otherwise an unknown
first token is reported; `cd` and `info` go through their parsers
(argparse's `SystemExit` is caught, leaving the state alone); a leaf is
parsed and executed, with `SystemExit` and exceptions caught and
reported. Returns the new state and the printed lines. -/
def execute_command (w : World) (st : ShellState) (commandLine : String) : ShellState × List String :=
  if pyStrip commandLine = "" then (st, [])
  else
    match pySplit commandLine with
    | [] => (st, [])
    | command_name :: rest =>
      if command_name = ".." then execute_cd w st ".."
      else if (get_available_dirs w st).contains command_name then
        execute_cd w st command_name
      else if (st.commands.lookup command_name).isNone then
        (st, ["Unknown command: " ++ command_name])
      else if command_name = "cd" then
        match cdParse rest with
        | .help => (st, [cdHelpText])
        | .error m => (st, ["error: " ++ m])
        | .ok p => execute_cd w st p
      else if command_name = "info" then
        match infoParse rest with
        | .help => (st, [infoHelpText])
        | .error m => (st, ["error: " ++ m])
        | .ok => (st, infoOutput)
      else
        match st.commands.lookup command_name with
        | some (CmdEntry.leaf c) =>
          (match c.parse rest with
           | .help => (st, [c.helpText])
           | .error m => (st, ["error: " ++ m])
           | .ok =>
             match c.exec rest with
             | .out ls => (st, ls)
             | .exc m => (st, ["Error executing command: " ++ m]))
        | _ => (st, [])

/-- Model of `show_help_for_current_input` (the `?` handler). With a blank buffer
it lists the snapshot (skipping `cd` and, since
`is_show_builtin_command_in_help` is initialised `False` and never
reassigned, every entry whose description starts with `"(built-in)"`)
and then the subdirectories. Otherwise it collects the commands and
directories matching the last token; exactly one matching command makes
it dispatch `<buffer> -h` through `execute_command` (which can mutate the
state); several are listed. Matching directories and the no-match report
follow. -/
def show_help_for_current_input (w : World) (st : ShellState) (buffer : String) :
    ShellState × List String :=
  let tokens := pySplit (pyStrip buffer)
  let current_token := (tokens.getLast?).getD ""
  if tokens.isEmpty then
    let cmdLines := (sortStrings (get_command_names st)).filterMap (fun cmd =>
      if cmd = "cd" then none
      else
        match st.commands.lookup cmd with
        | none => none
        | some e =>
          if strStartsWith e.description "(built-in)" then none
          else some (cmd ++ " - " ++ e.description))
    let dirs := get_available_dirs w st
    let dirLines :=
      if dirs.isEmpty then []
      else "Subdirectories:" :: (sortStrings dirs).map (fun d => d ++ "/")
    (st, "Available commands:" :: cmdLines ++ dirLines)
  else
    let matching_commands := (sortStrings (get_command_names st)).filterMap (fun cmd =>
      if strStartsWith cmd current_token then
        if cmd = "cd" then some (cmd, "Change directory")
        else
          match st.commands.lookup cmd with
          | none => none
          | some e => some (cmd, e.description)
      else none)
    let matching_dirs :=
      (sortStrings (get_available_dirs w st)).filter (fun d => strStartsWith d current_token)
    let stOut :=
      if matching_commands.length = 1 then
        execute_command w st (buffer ++ " -h")
      else if matching_commands.isEmpty then (st, [])
      else
        (st, "Matching commands:" :: matching_commands.map (fun p => p.1 ++ " - " ++ p.2))
    let dirOut :=
      if matching_dirs.isEmpty then []
      else "Matching directories:" :: matching_dirs.map (fun d => d ++ "/")
    let noneOut :=
      if matching_commands.isEmpty && matching_dirs.isEmpty then ["No matches found"] else []
    (stOut.1, stOut.2 ++ dirOut ++ noneOut)

/-! ### Completion -/

/-- All candidates the readline `completer` yields for a buffer and a
partial token (the source enumerates them one `state` at a time; this is
the whole list of one branch). First branch: first token still being
typed; second: the directory argument of `cd`; third: option flags of a
known first command; otherwise nothing. -/
def completerAll (w : World) (st : ShellState) (buffer : String) (text : String) :
    List String :=
  let line := pyLStrip buffer
  let tokens := pySplit line
  if tokens.isEmpty || (tokens.length = 1 && !(strEndsWith buffer " ")) then
    get_partial_matches w st text
  else
    match tokens with
    | [] => get_partial_matches w st text
    | t :: _ =>
      if t = "cd" && tokens.length ≤ 2 then
        (get_available_dirs w st).filter (fun d => strStartsWith d text)
      else if (st.commands.lookup t).isSome then
        (get_command_options st t).filter (fun o => strStartsWith o text)
      else []

/-- The current word `handle_tab` completes: empty when the buffer is
empty or ends in whitespace, else the last token. -/
def currentWord (line : String) : String :=
  match line.toList.getLast? with
  | none => ""
  | some c => if isSpaceChar c then "" else ((pySplit line).getLast?).getD ""

/-- Model of `handle_tab`: with one candidate, replace the last token by it and
append a space; with several, print them and advance the last token to
their common prefix when it is nonempty; with none, leave the line. -/
def handle_tab (w : World) (st : ShellState) (line : String) : String × List String :=
  let tokens := pySplit line
  let completions := completerAll w st line (currentWord line)
  match completions with
  | [] => (line, [])
  | [c] =>
    (if tokens.isEmpty then c ++ " " else unwords (tokens.dropLast ++ [c]) ++ " ", [])
  | cs =>
    let listing := "Possible completions:" :: cs
    let cp := commonPrefixAll cs
    if cp = "" then (line, listing)
    else
      (if tokens.isEmpty then cp else unwords (tokens.dropLast ++ [cp]), listing)

/-! ### The line editor (`get_input_with_immediate_help`) -/

/-- The editor's per-input-request state: the character buffer `line`, the
cursor `pos`, and the history browse index (`self.history_index`). -/
structure EditorState where
  line : List Char
  pos : Nat
  history_index : Nat
deriving DecidableEq, Repr

/-- The state at the start of an input request: empty buffer, cursor 0,
history index reset to the log length. -/
def editorInit (hist : List String) : EditorState :=
  ⟨[], 0, hist.length⟩

/-- Model of `line.insert(pos, c)`. -/
def insertAt (l : List Char) (i : Nat) (c : Char) : List Char :=
  l.take i ++ c :: l.drop i

/-- Model of `line.pop(i)`. -/
def removeAt (l : List Char) (i : Nat) : List Char :=
  l.take i ++ l.drop (i + 1)

/-- The editor keys the claims concern. -/
inductive EKey where
  | printable (c : Char)
  | backspace
  | up
  | down
  | tab
deriving DecidableEq

/-- One editor step, mirroring the corresponding branches of
`get_input_with_immediate_help`: printable characters (code point ≥ 32)
insert at the cursor; backspace removes before it when possible; Up/Down
browse `hist` exactly as the arrow-key branches do (cursor to the end of
the loaded entry, buffer cleared at the end of the log); Tab rewrites the
buffer through `handle_tab`, moving the cursor to the end when the buffer
changed. -/
def applyKey (w : World) (st : ShellState) (hist : List String) (es : EditorState) :
    EKey → EditorState
  | .printable c =>
    if 32 ≤ c.toNat then
      { es with line := insertAt es.line es.pos c, pos := es.pos + 1 }
    else es
  | .backspace =>
    if 0 < es.pos then
      { es with line := removeAt es.line (es.pos - 1), pos := es.pos - 1 }
    else es
  | .up =>
    if 0 < es.history_index then
      let i := es.history_index - 1
      let l := (hist.getD i "").toList
      ⟨l, l.length, i⟩
    else es
  | .down =>
    if es.history_index < hist.length then
      let i := es.history_index + 1
      let l := if i < hist.length then (hist.getD i "").toList else []
      ⟨l, l.length, i⟩
    else es
  | .tab =>
    let cur := String.mk es.line
    let new := (handle_tab w st cur).1
    if new = cur then es else { es with line := new.toList, pos := new.toList.length }

/-- Fold a key sequence through the editor. -/
def applyKeys (w : World) (st : ShellState) (hist : List String) :
    EditorState → List EKey → EditorState
  | es, [] => es
  | es, k :: ks => applyKeys w st hist (applyKey w st hist es k) ks

/-! ### Terminal rendering (`refresh_line`) -/

/-- What `refresh_line` writes to the terminal, abstracted to the three
things that move the cursor column: carriage return, printed text, and
backspaces. -/
inductive TermOp where
  | cr
  | text (s : String)
  | back (n : Nat)

/-- The cursor column after a write sequence, starting from `c`. -/
def colAfter : Nat → List TermOp → Nat
  | c, [] => c
  | _, .cr :: rest => colAfter 0 rest
  | c, .text s :: rest => colAfter (c + s.length) rest
  | c, .back n :: rest => colAfter (c - n) rest

def spacesStr (n : Nat) : String := String.mk (List.replicate n ' ')

/-- The exact write sequence of `refresh_line`: return to column 0, blank
the line's high-water mark, return again, print the prompt and buffer,
then backspace `len(line) - pos` times (zero times when the cursor is at
the end, matching the guarded write). -/
def refreshOps (prompt : String) (maxClear : Nat) (es : EditorState) : List TermOp :=
  [TermOp.cr, TermOp.text (spacesStr maxClear), TermOp.cr,
   TermOp.text (prompt ++ String.mk es.line),
   TermOp.back (es.line.length - es.pos)]

/-! ### Batch mode and the session driver (`run`) -/

/-- The loop body of `execute_batch_command`: while the next token is a
directory, `cd` into it; the first non-directory token starts the
remaining command, which is dispatched whole and counts as success (every
failure inside `execute_command` is caught there and already reported). -/
def batchLoop (w : World) : ShellState → List String → ShellState × Bool × List String
  | st, [] => (st, true, [])
  | st, p :: rest =>
    if isdir w (pathJoin st.current_path p) then
      let nav := execute_cd w st p
      let r := batchLoop w nav.1 rest
      (r.1, r.2.1, nav.2 ++ r.2.2)
    else
      let r := execute_command w st (unwords (p :: rest))
      (r.1, true, r.2)

/-- Model of `execute_batch_command`: a blank command line fails, anything else
runs the greedy loop. -/
def execute_batch_command (w : World) (st : ShellState) (commandLine : String) :
    ShellState × Bool × List String :=
  match pySplit (pyStrip commandLine) with
  | [] => (st, false, [])
  | parts => batchLoop w st parts

/-- The process exit status of `run` in batch mode:
`sys.exit(0 if success else 1)`. -/
def runBatchExit (w : World) (commandLine : String) : Nat :=
  let st : ShellState :=
    { current_path := "cmd", commands := load_commands w "cmd", is_batch_mode := true }
  if (execute_batch_command w st commandLine).2.1 then 0 else 1

/-- The fresh interactive shell state (`CommandShell.__init__` +
`load_commands`). -/
def initState (w : World) : ShellState :=
  { current_path := "cmd", commands := load_commands w "cmd", is_batch_mode := false }

/-- Events reaching the interactive session loop: a completed input line,
end-of-input (Ctrl-D on an empty buffer), an interrupt (Ctrl-C), or a
single raw key (only consumed by the bare `getch()` that follows a first
interrupt; a stray key elsewhere is just line-editor input with no
session-level effect). -/
inductive SEv where
  | line (s : String)
  | ctrlD
  | interrupt
  | key (c : Char)
deriving DecidableEq

/-- The session loop's state: the shell, the `going_quit` flag, and
whether the loop has exited. -/
structure SessionState where
  shell : ShellState
  going_quit : Bool
  terminated : Bool

/-- The interactive loop of `run`, consuming events synchronously (the
spec's own model of interrupts: delivered through the read loop). A line
is executed unless blank, `exit` and Ctrl-D leave the loop. An interrupt
with `going_quit` already set terminates; otherwise it sets `going_quit`
— which no later branch ever clears — and the driver reads one raw
character: a second interrupt there terminates, any other key is
discarded and the loop resumes. -/
def sessionSteps (w : World) : SessionState → List SEv → SessionState
  | ss, [] => ss
  | ss, .line s :: rest =>
    if pyStrip s = "exit" then { ss with terminated := true }
    else if pyStrip s = "" then sessionSteps w ss rest
    else sessionSteps w { ss with shell := (execute_command w ss.shell s).1 } rest
  | ss, .ctrlD :: _ => { ss with terminated := true }
  | ss, .key _ :: rest => sessionSteps w ss rest
  | ss, .interrupt :: rest =>
    if ss.going_quit then { ss with terminated := true }
    else
      match rest with
      | [] => { ss with going_quit := true }
      | .interrupt :: _ => { ss with going_quit := true, terminated := true }
      | _ :: rest' => sessionSteps w { ss with going_quit := true } rest'

/-! ### Navigation sequences (for the root-clamping invariant) -/

/-- A single path component, as produced by completion and listing: no
separator, not a dot-entry, nonempty. -/
def plainName (n : String) : Bool :=
  n ≠ "" && n ≠ "." && n ≠ ".." && !(n.toList.contains '/')

/-- A navigation request: `..` (also issued by the bare `..` command and
by `cd` with no argument) or `cd`/bare-name entry into a target. -/
inductive NavOp where
  | up
  | into (name : String)

def applyNav (w : World) (st : ShellState) : NavOp → ShellState
  | .up => (execute_cd w st "..").1
  | .into n => (execute_cd w st n).1

def applyNavs (w : World) : ShellState → List NavOp → ShellState
  | st, [] => st
  | st, o :: os => applyNavs w (applyNav w st o) os

/-- Every `into` target of the sequence is a plain component name. -/
def plainOps (ops : List NavOp) : Bool :=
  ops.all fun o => match o with
    | .up => true
    | .into n => plainName n

/-! ### Concrete worlds -/

/-- A well-behaved leaf module: argparse help on `-h`/`--help`, otherwise
a successful parse and a silent execute. -/
def mkCmd (descr help : String) (opts : List String) : Cmd :=
  { description := descr
    optionStrings := ["-h", "--help"] ++ opts
    helpText := help
    parse := fun args =>
      if args.contains "-h" || args.contains "--help" then ParseResult.help
      else ParseResult.ok
    exec := fun _ => ExecResult.out [] }

def helloCmd : Cmd := mkCmd "Say hello" "usage: hello [-h] [-n NAME]" ["-n", "--name"]

def timeCmd : Cmd := mkCmd "Show current time" "usage: time [-h]" []

def runCmd : Cmd := mkCmd "Run usb test" "usage: run [-h]" []

/-- The `cmd` tree of the main world: leaves `hello` and `time`, and the
nested subdirectories `test/usb` (holding leaf `run`), mirroring the
repository's `src/cmd` layout. -/
def cmdTreeMain : FsNode :=
  .node [("hello", helloCmd), ("time", timeCmd)]
    [("test", .node [] [("usb", .node [("run", runCmd)] [])])]

/-- The main world: the shell is started in `/home/user/repo`, which
contains the `cmd` tree. -/
def Wcmd : World :=
  { cwd := ["home", "user", "repo"]
    root := .node []
        [("home", .node []
          [("user", .node []
            [("repo", .node [] [("cmd", cmdTreeMain)])])])] }

/-- A world whose `cmd` directory holds both a command file `cmd_x.py`
and a subdirectory named `x`, so the same name is listed as a command and
as a directory. -/
def W3 : World :=
  { cwd := ["home", "user", "repo"]
    root := .node []
        [("home", .node []
          [("user", .node []
            [("repo", .node []
              [("cmd", .node [("x", mkCmd "An x command" "usage: x [-h]" [])]
                [("x", .node [] [])])])])])] }

/-- A world whose `cmd` directory holds the single leaf `foo`, giving the
partial token `fo` exactly one completion candidate. -/
def Wfoo : World :=
  { cwd := ["home", "user", "repo"]
    root := .node []
        [("home", .node []
          [("user", .node []
            [("repo", .node []
              [("cmd", .node [("foo", mkCmd "A foo command" "usage: foo [-h]" [])] [])])])])] }

end CliShell

namespace CliShell

/-! ### Helper lemmas -/

theorem insertAt_length (l : List Char) (i : Nat) (c : Char) :
    (insertAt l i c).length = l.length + 1 := by
  simp [insertAt]
  omega

theorem removeAt_length (l : List Char) (i : Nat) (h : i < l.length) :
    (removeAt l i).length = l.length - 1 := by
  simp [removeAt]
  omega

theorem applyKey_pos_le (w : World) (st : ShellState) (hist : List String)
    (es : EditorState) (k : EKey) (h : es.pos ≤ es.line.length) :
    (applyKey w st hist es k).pos ≤ (applyKey w st hist es k).line.length := by
  cases k with
  | printable c =>
    by_cases hc : 32 ≤ c.toNat
    · simp [applyKey, hc, insertAt_length]
      omega
    · simpa [applyKey, hc] using h
  | backspace =>
    by_cases hp : 0 < es.pos
    · simp [applyKey, hp, removeAt]
      omega
    · simpa [applyKey, hp] using h
  | up =>
    by_cases hi : 0 < es.history_index
    · simp [applyKey, hi]
    · simpa [applyKey, hi] using h
  | down =>
    by_cases hi : es.history_index < hist.length
    · simp [applyKey, hi]
    · simpa [applyKey, hi] using h
  | tab =>
    by_cases hn : (handle_tab w st (String.mk es.line)).1 = String.mk es.line
    · simpa [applyKey, hn] using h
    · simp [applyKey, hn]

theorem applyKeys_pos_le (w : World) (st : ShellState) (hist : List String) :
    ∀ (ks : List EKey) (es : EditorState), es.pos ≤ es.line.length →
      (applyKeys w st hist es ks).pos ≤ (applyKeys w st hist es ks).line.length := by
  intro ks
  induction ks with
  | nil => intro es h; exact h
  | cons k ks ih =>
    intro es h
    exact ih _ (applyKey_pos_le w st hist es k h)

theorem batchLoop_ok (w : World) :
    ∀ (parts : List String) (st : ShellState), (batchLoop w st parts).2.1 = true := by
  intro parts
  induction parts with
  | nil => intro st; rfl
  | cons p rest ih =>
    intro st
    by_cases hd : isdir w (pathJoin st.current_path p) = true
    · simp [batchLoop, hd, ih]
    · simp [batchLoop, hd]

end CliShell

namespace CliShell

/-! ### Claim C10 -/

/-- Claim C10: dispatching a command line that is empty or consists only
of whitespace is a complete no-op — `execute_command` returns with the
state (Location and snapshot included) unchanged and prints nothing. -/
theorem C10_blank_line_noop (w : World) (st : ShellState) (commandLine : String)
    (h : pyStrip commandLine = "") :
    execute_command w st commandLine = (st, []) := by
  simp [execute_command, h]

/-- Witness for C10 at the concrete whitespace line `"   "`. -/
theorem C10_blank_line_noop_witness :
    execute_command Wcmd (initState Wcmd) "   " = (initState Wcmd, []) :=
  C10_blank_line_noop Wcmd (initState Wcmd) "   " (by decide)

/-! ### Claim C7 -/

/-- Claim C7: with history log `["a", "b", "c"]` and the cursor reset to
the log length at the start of the input request, Up three times loads
`"c"`, `"b"`, `"a"` (cursor at the end of the buffer each time), Down
once afterwards loads `"b"`, Down at the end of the log clears the
buffer, and Up decrements the index only while it is positive (at index
`0` it is a no-op). -/
theorem C7_history_browsing :
    (let hist := ["a", "b", "c"]
     let s0 := editorInit hist
     let s1 := applyKey Wcmd (initState Wcmd) hist s0 EKey.up
     let s2 := applyKey Wcmd (initState Wcmd) hist s1 EKey.up
     let s3 := applyKey Wcmd (initState Wcmd) hist s2 EKey.up
     let s4 := applyKey Wcmd (initState Wcmd) hist s3 EKey.down
     s0.history_index = 3
       ∧ s1 = ⟨"c".toList, 1, 2⟩ ∧ s1.pos = s1.line.length
       ∧ s2 = ⟨"b".toList, 1, 1⟩ ∧ s2.pos = s2.line.length
       ∧ s3 = ⟨"a".toList, 1, 0⟩ ∧ s3.pos = s3.line.length
       ∧ s4 = ⟨"b".toList, 1, 1⟩
       ∧ applyKey Wcmd (initState Wcmd) hist s1 EKey.down = ⟨[], 0, 3⟩)
    ∧ ∀ (w : World) (st : ShellState) (hist : List String) (l : List Char) (p : Nat),
        applyKey w st hist ⟨l, p, 0⟩ EKey.up = ⟨l, p, 0⟩ := by
  constructor
  · decide
  · intro w st hist l p
    simp [applyKey]

/-! ### Claim C4 -/

/-- Claim C4 is false on the code: `going_quit` is armed by the first
interrupt and never cleared, so after an interrupt followed by ordinary
input (a discarded key and a full executed line), one later single
interrupt still terminates the session. -/
theorem C4_code_bug :
    (sessionSteps Wcmd ⟨initState Wcmd, false, false⟩
        [SEv.interrupt, SEv.key 'x', SEv.line "hello"]).going_quit = true
    ∧ (sessionSteps Wcmd ⟨initState Wcmd, false, false⟩
        [SEv.interrupt, SEv.key 'x', SEv.line "hello"]).terminated = false
    ∧ (sessionSteps Wcmd ⟨initState Wcmd, false, false⟩
        [SEv.interrupt, SEv.key 'x', SEv.line "hello", SEv.interrupt]).terminated = true :=
  ⟨rfl, rfl, rfl⟩

/-! ### Claim C2 -/

/-- Claim C2 is false on the code: with buffer `"hel"` whose unique
matching snapshot entry is the leaf `hello`, the help engine dispatches
the partial token itself (`hel -h`) through `execute_command`, which
reports `Unknown command: hel` instead of rendering `hello`'s full option
help — the full help appears only when the typed token already equals the
full name. -/
theorem C2_code_bug :
    show_help_for_current_input Wcmd (initState Wcmd) "hel"
        = (initState Wcmd, ["Unknown command: hel"])
    ∧ (show_help_for_current_input Wcmd (initState Wcmd) "hel").2 ≠ [helloCmd.helpText]
    ∧ (execute_command Wcmd (initState Wcmd) "hello -h").2 = [helloCmd.helpText] :=
  ⟨rfl, by decide, rfl⟩

/-! ### Claim C1 -/

/-- Claim C1 is false on the code: the batch line `"nosuch"` dispatches an
unknown command — the final step fails and is reported — yet the process
exit status is `0`, because `execute_command` swallows every dispatch
failure before `execute_batch_command` can see it. -/
theorem C1_counterexample :
    (execute_batch_command Wcmd
        { current_path := "cmd", commands := load_commands Wcmd "cmd", is_batch_mode := true }
        "nosuch").2.2 = ["Unknown command: nosuch"]
    ∧ runBatchExit Wcmd "nosuch" = 0 :=
  ⟨rfl, rfl⟩

/-- Claim C1, amended: batch mode greedily consumes leading tokens that
name existing directories, navigating into each, and dispatches the
remaining tokens as one command; but the exit status is `0` for every
batch line with at least one token, whatever the outcome of the final
dispatched step, and `1` exactly when the line is empty or whitespace. -/
theorem C1_amended :
    (∀ (w : World) (st : ShellState) (p : String) (rest : List String),
        isdir w (pathJoin st.current_path p) = true →
        batchLoop w st (p :: rest) =
          ((batchLoop w (execute_cd w st p).1 rest).1,
           (batchLoop w (execute_cd w st p).1 rest).2.1,
           (execute_cd w st p).2 ++ (batchLoop w (execute_cd w st p).1 rest).2.2))
    ∧ (∀ (w : World) (st : ShellState) (p : String) (rest : List String),
        isdir w (pathJoin st.current_path p) = false →
        batchLoop w st (p :: rest) =
          ((execute_command w st (unwords (p :: rest))).1, true,
           (execute_command w st (unwords (p :: rest))).2))
    ∧ ∀ (w : World) (line : String),
        runBatchExit w line = 0 ↔ pySplit (pyStrip line) ≠ [] := by
  refine ⟨?_, ?_, ?_⟩
  · intro w st p rest hd
    simp [batchLoop, hd]
  · intro w st p rest hd
    simp [batchLoop, hd]
  · intro w line
    unfold runBatchExit execute_batch_command
    cases h : pySplit (pyStrip line) with
    | nil => simp [h]
    | cons p rest => simp [h, batchLoop_ok]

/-- Witness for C1 at concrete inputs: the nonempty batch line `"hello"`
exits `0`, a leading directory token is consumed by navigation, and a
non-directory token dispatches the whole remainder. -/
theorem C1_amended_witness :
    runBatchExit Wcmd "hello" = 0
    ∧ batchLoop Wcmd (initState Wcmd) ["test", "usb"] =
        ((batchLoop Wcmd (execute_cd Wcmd (initState Wcmd) "test").1 ["usb"]).1,
         (batchLoop Wcmd (execute_cd Wcmd (initState Wcmd) "test").1 ["usb"]).2.1,
         (execute_cd Wcmd (initState Wcmd) "test").2
           ++ (batchLoop Wcmd (execute_cd Wcmd (initState Wcmd) "test").1 ["usb"]).2.2) :=
  ⟨(C1_amended.2.2 Wcmd "hello").mpr (by decide),
   C1_amended.1 Wcmd (initState Wcmd) "test" ["usb"] (by decide)⟩

/-! ### Claim C6 -/

/-- Claim C6 is false as universally stated: the navigation target
`"test/usb"` does not name a sub-namespace of the root Location (its
directory listing is exactly `["test"]`), yet `execute_cd` succeeds —
the Location changes to `cmd/test/usb` and no error is reported —
because `os.path.isdir` accepts any path, not only direct children. -/
theorem C6_counterexample :
    get_available_dirs Wcmd (initState Wcmd) = ["test"]
    ∧ (get_available_dirs Wcmd (initState Wcmd)).contains "test/usb" = false
    ∧ (execute_cd Wcmd (initState Wcmd) "test/usb").1.current_path = "cmd/test/usb"
    ∧ (execute_cd Wcmd (initState Wcmd) "test/usb").2
        = ["Current directory: cmd/test/usb"] := by
  refine ⟨rfl, by decide, rfl, rfl⟩

/-- Claim C6, amended: a navigation request fails exactly when the target
joined to the current Location is not a directory of the filesystem (for
plain names, exactly when the target is not an existing sub-namespace);
in that case the failure is atomic — the error is reported and the whole
state, Location and loaded snapshot included, is returned untouched.
(Path-shaped targets such as `test/usb` that do resolve to directories
navigate successfully instead.) -/
theorem C6_amended :
    (∀ (w : World) (st : ShellState) (t : String), t ≠ ".." →
        isdir w (pathJoin st.current_path t) = false →
        execute_cd w st t = (st, ["Directory not found: " ++ t]))
    ∧ execute_command Wcmd (initState Wcmd) "cd nope"
        = (initState Wcmd, ["Directory not found: nope"]) := by
  constructor
  · intro w st t ht hd
    simp [execute_cd, ht, hd]
  · rfl

/-- Witness for C6 at the concrete missing target `"nope"`. -/
theorem C6_amended_witness :
    execute_cd Wcmd (initState Wcmd) "nope"
      = (initState Wcmd, ["Directory not found: nope"]) :=
  C6_amended.1 Wcmd (initState Wcmd) "nope" (by decide) (by decide)

end CliShell

namespace CliShell

theorem mk_toList (s : String) : String.mk s.toList = s := rfl

theorem length_mk (l : List Char) : (String.mk l).length = l.length := rfl

theorem unwords_singleton (s : String) : unwords [s] = s := rfl

/-! ### Claim C9 -/

/-- Claim C9: when the Completion Engine yields exactly one candidate,
`handle_tab` replaces the last token by it in place (tokens before it
preserved, a trailing space appended); with several candidates it prints
them and advances the last token to their purely textual longest common
prefix, returning a buffer rather than submitting anything; the editor
moves the cursor to the end whenever Tab changed the buffer; and on the
concrete `"fo"` with unique candidate `"foo"` the buffer becomes
`"foo "` with the cursor at its end. -/
theorem C9_tab_rewrite :
    (∀ (w : World) (st : ShellState) (line c : String),
        completerAll w st line (currentWord line) = [c] →
        handle_tab w st line = (unwords ((pySplit line).dropLast ++ [c]) ++ " ", []))
    ∧ (∀ (w : World) (st : ShellState) (line c₁ c₂ : String) (cs : List String),
        completerAll w st line (currentWord line) = c₁ :: c₂ :: cs →
        commonPrefixAll (c₁ :: c₂ :: cs) ≠ "" →
        handle_tab w st line =
          (unwords ((pySplit line).dropLast ++ [commonPrefixAll (c₁ :: c₂ :: cs)]),
           "Possible completions:" :: c₁ :: c₂ :: cs))
    ∧ (∀ (w : World) (st : ShellState) (hist : List String) (es : EditorState),
        (handle_tab w st (String.mk es.line)).1 ≠ String.mk es.line →
        applyKey w st hist es EKey.tab =
          { es with line := ((handle_tab w st (String.mk es.line)).1).toList,
                    pos := ((handle_tab w st (String.mk es.line)).1).toList.length })
    ∧ applyKey Wfoo (initState Wfoo) [] ⟨"fo".toList, 2, 0⟩ EKey.tab
        = ⟨"foo ".toList, 4, 0⟩ := by
  refine ⟨?_, ?_, ?_, by decide⟩
  · intro w st line c h
    simp only [handle_tab, h]
    by_cases ht : pySplit line = []
    · simp [ht, unwords_singleton]
    · simp [ht]
  · intro w st line c₁ c₂ cs h hcp
    simp only [handle_tab, h]
    by_cases ht : pySplit line = []
    · simp [ht, hcp, unwords_singleton]
    · simp [ht, hcp]
  · intro w st hist es h
    simp [applyKey, h]

/-- Witness for C9: the unique-candidate rewrite applied at the concrete
buffer `"fo"` of the world whose only matching entry is `foo`. -/
theorem C9_tab_rewrite_witness :
    handle_tab Wfoo (initState Wfoo) "fo"
      = (unwords ((pySplit "fo").dropLast ++ ["foo"]) ++ " ", []) :=
  C9_tab_rewrite.1 Wfoo (initState Wfoo) "fo" "foo" (by decide)

/-! ### Claim C3 -/

theorem charsLe_total : ∀ (a b : List Char), charsLe a b = true ∨ charsLe b a = true := by
  intro a
  induction a with
  | nil => intro b; left; rfl
  | cons x xs ih =>
    intro b
    cases b with
    | nil => right; rfl
    | cons y ys =>
      by_cases h1 : x.toNat < y.toNat
      · left; simp [charsLe, h1]
      · by_cases h2 : y.toNat < x.toNat
        · right; simp [charsLe, h2]
        · cases ih ys with
          | inl h => left; simp [charsLe, h1, h2, h]
          | inr h => right; simp [charsLe, h1, h2, h]

theorem strLe_total (a b : String) : strLe a b = true ∨ strLe b a = true :=
  charsLe_total a.toList b.toList

theorem insertSorted_ne_nil (s : String) (l : List String) : insertSorted s l ≠ [] := by
  cases l with
  | nil => simp [insertSorted]
  | cons t ts =>
    by_cases h : strLe s t
    · simp [insertSorted, h]
    · simp [insertSorted, h]

theorem isSortedB_cons_cons (a b : String) (l : List String) :
    isSortedB (a :: b :: l) = (strLe a b && isSortedB (b :: l)) := rfl

theorem insertSorted_sorted (s : String) :
    ∀ (l : List String), isSortedB l = true →
      isSortedB (insertSorted s l) = true ∧
        ∀ (b : String) (bs : List String), insertSorted s l = b :: bs →
          b = s ∨ ∃ ts, l = b :: ts := by
  intro l
  induction l with
  | nil =>
    intro _
    refine ⟨rfl, ?_⟩
    intro b bs hb
    simp only [insertSorted] at hb
    cases hb
    exact Or.inl rfl
  | cons t ts ih =>
    intro hs
    have hts : isSortedB ts = true := by
      cases ts with
      | nil => rfl
      | cons u us =>
        have h' := hs
        rw [isSortedB_cons_cons, Bool.and_eq_true] at h'
        exact h'.2
    by_cases h : strLe s t = true
    · have he : insertSorted s (t :: ts) = s :: t :: ts := by simp [insertSorted, h]
      refine ⟨?_, ?_⟩
      · rw [he, isSortedB_cons_cons, Bool.and_eq_true]
        exact ⟨h, hs⟩
      · intro b bs hb
        rw [he] at hb
        injection hb with h1 _
        exact Or.inl h1.symm
    · have hls : strLe t s = true := by
        rcases strLe_total s t with h' | h'
        · exact absurd h' h
        · exact h'
      have he : insertSorted s (t :: ts) = t :: insertSorted s ts := by
        simp [insertSorted, h]
      obtain ⟨ihs, ihhead⟩ := ih hts
      refine ⟨?_, ?_⟩
      · rw [he]
        cases hin : insertSorted s ts with
        | nil => exact absurd hin (insertSorted_ne_nil s ts)
        | cons b bs =>
          rw [isSortedB_cons_cons, Bool.and_eq_true]
          refine ⟨?_, ?_⟩
          · rcases ihhead b bs hin with hb | ⟨us, hts'⟩
            · rw [hb]; exact hls
            · rw [hts', isSortedB_cons_cons, Bool.and_eq_true] at hs
              exact hs.1
          · rw [← hin]; exact ihs
      · intro b bs hb
        rw [he] at hb
        injection hb with h1 _
        exact Or.inr ⟨ts, by rw [h1]⟩

theorem sortStrings_sorted (l : List String) : isSortedB (sortStrings l) = true := by
  induction l with
  | nil => rfl
  | cons x xs ih => exact (insertSorted_sorted x (sortStrings xs) ih).1

/-- Claim C3 is false on the code: in a world whose `cmd` directory holds
both a command file `cmd_x.py` and a subdirectory `x`, the candidates for
an empty first partial token are the snapshot keys followed by the
directory names — `["info", "cd", "x", "x"]` — which is neither sorted
nor duplicate-free; and even the sorted non-empty-token result keeps the
duplicate (`["x", "x"]`). -/
theorem C3_counterexample :
    completerAll W3 (initState W3) "" "" = ["info", "cd", "x", "x"]
    ∧ isSortedB (completerAll W3 (initState W3) "" "") = false
    ∧ ¬ (completerAll W3 (initState W3) "" "").Nodup
    ∧ get_partial_matches W3 (initState W3) "x" = ["x", "x"]
    ∧ ¬ (get_partial_matches W3 (initState W3) "x").Nodup := by
  exact ⟨by decide, by decide, by decide, by decide, by decide⟩

/-- Claim C3, amended: only a non-empty first partial token yields a
sorted candidate list, and no context deduplicates — a name that is both
a command and a directory appears twice; an empty first partial token
yields every entry name, but in snapshot order followed by listing order
rather than sorted. -/
theorem C3_amended :
    (∀ (w : World) (st : ShellState) (text : String), text ≠ "" →
        isSortedB (get_partial_matches w st text) = true)
    ∧ ∀ (w : World) (st : ShellState),
        get_partial_matches w st "" = get_command_names st ++ get_available_dirs w st := by
  constructor
  · intro w st text ht
    simp [get_partial_matches, ht, sortStrings_sorted]
  · intro w st
    simp [get_partial_matches]

/-- Witness for C3 at the concrete partial token `"x"`. -/
theorem C3_amended_witness :
    isSortedB (get_partial_matches W3 (initState W3) "x") = true :=
  C3_amended.1 W3 (initState W3) "x" (by decide)

/-! ### Claim C8 -/

/-- Claim C8: over any key sequence of one input request (printable
insertions and backspaces included), the cursor index stays within
`[0, buffer length]`, and after each full redraw — which writes the
prompt and buffer from column 0 and then moves left exactly
`buffer length - cursor` columns — the rendered cursor column is exactly
`prompt length + cursor`. -/
theorem C8_render_invariant (w : World) (st : ShellState) (hist : List String)
    (ks : List EKey) (prompt : String) (maxClear c0 : Nat) :
    (applyKeys w st hist (editorInit hist) ks).pos
        ≤ (applyKeys w st hist (editorInit hist) ks).line.length
    ∧ colAfter c0 (refreshOps prompt maxClear (applyKeys w st hist (editorInit hist) ks))
        = prompt.length + (applyKeys w st hist (editorInit hist) ks).pos := by
  have hle := applyKeys_pos_le w st hist ks (editorInit hist) (by simp [editorInit])
  refine ⟨hle, ?_⟩
  simp [refreshOps, colAfter, String.length_append, length_mk]
  omega

end CliShell

namespace CliShell

/-! ### Path lemmas for Claim C5 -/

theorem toList_mk (l : List Char) : (String.mk l).toList = l := rfl

theorem splitChars_ne_nil (p : Char → Bool) : ∀ (l : List Char), splitChars p l ≠ [] := by
  intro l
  cases l with
  | nil => simp [splitChars]
  | cons c cs =>
    by_cases hc : p c = true
    · simp [splitChars, hc]
    · cases hr : splitChars p cs with
      | nil => simp [splitChars, hc, hr]
      | cons g gs => simp [splitChars, hc, hr]

theorem splitChars_append_sep (p : Char → Bool) (sep : Char) (hsep : p sep = true) :
    ∀ (xs ys : List Char),
      splitChars p (xs ++ sep :: ys) = splitChars p xs ++ splitChars p ys := by
  intro xs
  induction xs with
  | nil =>
    intro ys
    simp [splitChars, hsep]
  | cons x xs ih =>
    intro ys
    by_cases hx : p x = true
    · simp only [List.cons_append, splitChars, hx, if_true, List.cons_append]
      simp only [List.cons_inj_right]
      exact ih ys
    · simp only [List.cons_append, splitChars, hx, Bool.false_eq_true, if_false,
        List.append_eq]
      rw [ih ys]
      cases hr : splitChars p xs with
      | nil => exact absurd hr (splitChars_ne_nil p xs)
      | cons g gs => rfl

theorem splitChars_no_sep (p : Char → Bool) :
    ∀ (l : List Char), (∀ c ∈ l, p c = false) → splitChars p l = [l] := by
  intro l
  induction l with
  | nil => intro _; rfl
  | cons c cs ih =>
    intro h
    have hc : p c = false := h c (by simp)
    have hcs := ih (fun d hd => h d (by simp [hd]))
    simp [splitChars, hc, hcs]

theorem joinWith_cons (sep : Char) (g : List Char) (r : List (List Char)) (h : r ≠ []) :
    joinWith sep (g :: r) = g ++ sep :: joinWith sep r := by
  cases r with
  | nil => exact absurd rfl h
  | cons a as => rfl

theorem joinWith_splitChars_slash : ∀ (l : List Char),
    joinWith '/' (splitChars (· = '/') l) = l := by
  intro l
  induction l with
  | nil => rfl
  | cons c cs ih =>
    by_cases hc : c = '/'
    · subst hc
      cases hr : splitChars (· = '/') cs with
      | nil => exact absurd hr (splitChars_ne_nil _ cs)
      | cons g gs =>
        simp only [splitChars, decide_True, if_true, hr]
        rw [joinWith_cons _ _ _ (by simp)]
        simp only [List.nil_append]
        rw [← hr, ih]
    · have hcb : (decide (c = '/')) = false := decide_eq_false hc
      cases hr : splitChars (· = '/') cs with
      | nil => exact absurd hr (splitChars_ne_nil _ cs)
      | cons g gs =>
        simp only [splitChars, hcb, Bool.false_eq_true, if_false, hr]
        cases gs with
        | nil =>
          rw [hr] at ih
          simp only [joinWith] at ih ⊢
          rw [ih]
        | cons a as =>
          rw [joinWith_cons _ _ _ (by simp)]
          rw [hr] at ih
          rw [joinWith_cons _ _ _ (by simp)] at ih
          rw [← ih]
          simp

theorem joinPath_splitSlash (s : String) : joinPath (splitSlash s) = s := by
  unfold joinPath splitSlash
  rw [List.map_map]
  have h1 : List.map (String.toList ∘ String.mk) (splitChars (· = '/') s.toList)
      = splitChars (· = '/') s.toList := by
    simp only [Function.comp_def, toList_mk, List.map_id']
  rw [h1, joinWith_splitChars_slash, mk_toList]

theorem splitChars_joinWith (p : Char → Bool) (sep : Char) (hsep : p sep = true) :
    ∀ (gs : List (List Char)), gs ≠ [] → (∀ g ∈ gs, ∀ c ∈ g, p c = false) →
      splitChars p (joinWith sep gs) = gs := by
  intro gs
  induction gs with
  | nil => intro h _; exact absurd rfl h
  | cons g gs ih =>
    intro _ hfree
    cases gs with
    | nil =>
      simp only [joinWith]
      exact splitChars_no_sep p g (hfree g (by simp))
    | cons a as =>
      rw [joinWith_cons _ _ _ (by simp)]
      rw [splitChars_append_sep p sep hsep]
      rw [splitChars_no_sep p g (hfree g (by simp))]
      rw [ih (by simp) (fun g' hg' c hc => hfree g' (by simp [hg']) c hc)]
      rfl

theorem splitSlash_joinPath (gs : List String) (h1 : gs ≠ [])
    (h2 : ∀ g ∈ gs, '/' ∉ g.toList) : splitSlash (joinPath gs) = gs := by
  unfold splitSlash joinPath
  rw [toList_mk]
  rw [splitChars_joinWith (· = '/') '/' (by decide) (gs.map String.toList)
    (by simpa using h1)
    (by
      intro g hg c hc
      simp only [List.mem_map] at hg
      obtain ⟨g', hg', rfl⟩ := hg
      exact decide_eq_false (fun he => h2 g' hg' (he ▸ hc)))]
  rw [List.map_map]
  simp only [Function.comp_def, mk_toList, List.map_id']

end CliShell


namespace CliShell

theorem plainName_spec (n : String) (h : plainName n = true) :
    n ≠ "" ∧ n ≠ "." ∧ n ≠ ".." ∧ '/' ∉ n.toList := by
  simp only [plainName, Bool.and_eq_true, decide_eq_true_eq, Bool.not_eq_true'] at h
  obtain ⟨⟨⟨h1, h2⟩, h3⟩, h4⟩ := h
  refine ⟨h1, h2, h3, ?_⟩
  intro hm
  have h5 : n.toList.elem '/' = false := h4
  have h6 : n.toList.elem '/' = true := List.elem_eq_true_of_mem hm
  rw [h6] at h5
  exact Bool.noConfusion h5

theorem string_eq_of_toList_nil (n : String) (h : n.toList = []) : n = "" := by
  rw [← mk_toList n, h]

theorem not_startsWith_slash (n : String) (h : plainName n = true) :
    strStartsWith n "/" = false := by
  obtain ⟨h1, _, _, h4⟩ := plainName_spec n h
  unfold strStartsWith
  cases hn : n.toList with
  | nil => exact absurd (string_eq_of_toList_nil n hn) h1
  | cons c cs =>
    have hc : ('/' : Char) ≠ c := by
      intro hceq
      exact h4 (by rw [hn, ← hceq]; simp)
    show List.isPrefixOf "/".toList (c :: cs) = false
    simp [List.isPrefixOf, hc]

theorem not_startsWith_of_splitSlash_cmd (p : String) (ns : List String)
    (h : splitSlash p = "cmd" :: ns) : strStartsWith p "/" = false := by
  unfold strStartsWith
  cases hn : p.toList with
  | nil =>
    have h2 : splitSlash p = [""] := by unfold splitSlash; rw [hn]; rfl
    have h3 : ("cmd" :: ns : List String) = [""] := h.symm.trans h2
    injection h3 with hx _
    exact absurd hx (by decide)
  | cons c cs =>
    by_cases hc : c = '/'
    · subst hc
      have h2 : splitSlash p = "" :: (splitChars (· = '/') cs).map String.mk := by
        unfold splitSlash
        rw [hn]
        simp [splitChars]
      have h3 := h.symm.trans h2
      injection h3 with hx _
      exact absurd hx (by decide)
    · show List.isPrefixOf "/".toList (c :: cs) = false
      simp [List.isPrefixOf]
      intro hceq
      exact absurd hceq.symm hc

theorem splitSlash_pathJoin (p n : String) (h : plainName n = true) :
    splitSlash (pathJoin p n) = splitSlash p ++ [n] := by
  obtain ⟨_, _, _, h4⟩ := plainName_spec n h
  unfold pathJoin
  rw [not_startsWith_slash n h]
  simp only [Bool.false_eq_true, if_false]
  unfold splitSlash
  have hdata : (p ++ "/" ++ n).toList = p.toList ++ '/' :: n.toList := by
    show (p.data ++ "/".data) ++ n.data = p.data ++ '/' :: n.data
    simp
  rw [hdata]
  rw [splitChars_append_sep (· = '/') '/' (by decide)]
  rw [splitChars_no_sep (· = '/') n.toList
    (fun c hc => decide_eq_false (fun he => h4 (he ▸ hc)))]
  simp [mk_toList]

theorem normJoin_plain : ∀ (ns : List String) (base : List String),
    (∀ n ∈ ns, plainName n = true) → normJoin base ns = base ++ ns := by
  intro ns
  induction ns with
  | nil => intro base _; simp [normJoin]
  | cons c rest ih =>
    intro base h
    obtain ⟨h1, h2, h3, _⟩ := plainName_spec c (h c (by simp))
    simp only [normJoin, h1, h2, h3, if_false, decide_False, Bool.or_self,
      Bool.false_eq_true]
    rw [ih (base ++ [c]) (fun n hn => h n (by simp [hn]))]
    simp

theorem absOf_rooted (w : World) (p : String) (ns : List String)
    (hns : ∀ n ∈ ns, plainName n = true) (h : splitSlash p = "cmd" :: ns) :
    absOf w p = w.cwd ++ "cmd" :: ns := by
  unfold absOf
  rw [not_startsWith_of_splitSlash_cmd p ns h]
  simp only [Bool.false_eq_true, if_false]
  rw [h]
  rw [normJoin_plain ("cmd" :: ns) w.cwd ?_]
  intro n hn
  rcases List.mem_cons.mp hn with hn | hn
  · subst hn; decide
  · exact hns n hn

theorem absOf_cmd (w : World) : absOf w "cmd" = w.cwd ++ ["cmd"] :=
  absOf_rooted w "cmd" [] (fun n hn => absurd hn (List.not_mem_nil n)) (by decide)

theorem execute_cd_up_path (w : World) (st : ShellState) :
    (execute_cd w st "..").1.current_path =
      (if absOf w st.current_path = absOf w "cmd" then st.current_path
       else dirnameStr st.current_path) := by
  by_cases heq : absOf w st.current_path = absOf w "cmd"
  · simp [execute_cd, heq]
  · simp [execute_cd, heq]

theorem execute_cd_into_path (w : World) (st : ShellState) (t : String) (ht : t ≠ "..") :
    (execute_cd w st t).1.current_path =
      (if isdir w (pathJoin st.current_path t) = true then pathJoin st.current_path t
       else st.current_path) := by
  by_cases hd : isdir w (pathJoin st.current_path t) = true
  · simp [execute_cd, ht, hd]
  · simp [execute_cd, ht, hd]

theorem execute_cd_rooted (w : World) (st : ShellState) (t : String)
    (hroot : ∃ ns, (∀ n ∈ ns, plainName n = true)
      ∧ splitSlash st.current_path = "cmd" :: ns)
    (ht : t = ".." ∨ plainName t = true) :
    ∃ ns, (∀ n ∈ ns, plainName n = true)
      ∧ splitSlash (execute_cd w st t).1.current_path = "cmd" :: ns := by
  obtain ⟨ns, hns, hsp⟩ := hroot
  rcases ht with ht | ht
  · subst ht
    rw [execute_cd_up_path w st]
    by_cases heq : absOf w st.current_path = absOf w "cmd"
    · rw [if_pos heq]
      exact ⟨ns, hns, hsp⟩
    · rw [if_neg heq]
      have hne : ns ≠ [] := by
        intro h0
        subst h0
        have hp : st.current_path = "cmd" := by
          have hjp := joinPath_splitSlash st.current_path
          rw [hsp] at hjp
          rw [← hjp]
          rfl
        exact heq (by rw [hp])
      refine ⟨ns.dropLast, fun n hn => hns n ((List.dropLast_prefix ns).subset hn), ?_⟩
      unfold dirnameStr
      rw [hsp]
      cases ns with
      | nil => exact absurd rfl hne
      | cons m ms =>
        have hdl : ("cmd" :: m :: ms).dropLast = "cmd" :: (m :: ms).dropLast := rfl
        rw [hdl]
        rw [splitSlash_joinPath ("cmd" :: (m :: ms).dropLast) (by simp) ?_]
        intro g hg
        rcases List.mem_cons.mp hg with hg | hg
        · subst hg; decide
        · exact (plainName_spec g
            (hns g ((List.dropLast_prefix (m :: ms)).subset hg))).2.2.2
  · have hspec := plainName_spec t ht
    have ht2 : t ≠ ".." := hspec.2.2.1
    rw [execute_cd_into_path w st t ht2]
    by_cases hd : isdir w (pathJoin st.current_path t) = true
    · rw [if_pos hd]
      refine ⟨ns ++ [t], ?_, ?_⟩
      · intro n hn
        rcases List.mem_append.mp hn with hn | hn
        · exact hns n hn
        · simp only [List.mem_singleton] at hn
          subst hn
          exact ht
      · rw [splitSlash_pathJoin st.current_path t ht, hsp]
        rfl
    · rw [if_neg hd]
      exact ⟨ns, hns, hsp⟩

theorem applyNavs_rooted (w : World) :
    ∀ (ops : List NavOp) (st : ShellState), plainOps ops = true →
      (∃ ns, (∀ n ∈ ns, plainName n = true)
        ∧ splitSlash st.current_path = "cmd" :: ns) →
      ∃ ns, (∀ n ∈ ns, plainName n = true)
        ∧ splitSlash (applyNavs w st ops).current_path = "cmd" :: ns := by
  intro ops
  induction ops with
  | nil => intro st _ h; exact h
  | cons o os ih =>
    intro st hops hr
    cases o with
    | up =>
      have hos : plainOps os = true := by simpa [plainOps] using hops
      exact ih _ hos (execute_cd_rooted w st ".." hr (Or.inl rfl))
    | into n =>
      have h2 : plainName n = true ∧ plainOps os = true := by
        simpa [plainOps] using hops
      exact ih _ h2.2 (execute_cd_rooted w st n hr (Or.inr h2.1))

theorem isPrefixOf_append_left (a : List String) :
    ∀ (b : List String), List.isPrefixOf a (a ++ b) = true := by
  induction a with
  | nil => intro b; simp
  | cons x xs ih => intro b; simp [List.isPrefixOf_cons₂, ih]

theorem cd_up_at_root (w : World) (st : ShellState) (h : st.current_path = "cmd") :
    (execute_cd w st "..").1.current_path = "cmd" := by
  simp [execute_cd, h]

end CliShell

namespace CliShell

/-! ### Claim C5 -/

/-- Claim C5 is false in its universal part: from the root, the
navigation request `cd ../..` — whose joined path `cmd/../..` the OS
reports as a directory (the parent of the working directory) — is
accepted, and the resulting Location `cmd/../..` resolves to
`/home/user`, outside the root `cmd` tree. -/
theorem C5_counterexample :
    (execute_command Wcmd (initState Wcmd) "cd ../..").1.current_path = "cmd/../.."
    ∧ (execute_command Wcmd (initState Wcmd) "cd ../..").2
        = ["Current directory: cmd/../.."]
    ∧ absOf Wcmd "cmd/../.." = ["home", "user"]
    ∧ List.isPrefixOf (absOf Wcmd "cmd") (absOf Wcmd "cmd/../..") = false := by
  exact ⟨rfl, rfl, by decide, by decide⟩

/-- Claim C5, amended: executing `..` (or `cd ..`) at the root Location
is a no-op on the Location, and navigation sequences built from `..` and
plain component names (the names listing and completion offer) never
take the Location outside the root directory tree; only `cd` with a
dotted or multi-component path argument can escape. -/
theorem C5_amended :
    (∀ (w : World) (st : ShellState), st.current_path = "cmd" →
        (execute_cd w st "..").1.current_path = "cmd")
    ∧ (∀ (w : World) (st : ShellState), st.current_path = "cmd" →
        (execute_command w st "..").1.current_path = "cmd")
    ∧ ∀ (w : World) (ops : List NavOp), plainOps ops = true →
        List.isPrefixOf (absOf w "cmd")
          (absOf w (applyNavs w (initState w) ops).current_path) = true := by
  refine ⟨fun w st h => cd_up_at_root w st h, fun w st h => cd_up_at_root w st h, ?_⟩
  intro w ops hops
  obtain ⟨ns, hns, hsp⟩ := applyNavs_rooted w ops (initState w) hops
    ⟨[], fun n hn => absurd hn (List.not_mem_nil n), rfl⟩
  rw [absOf_rooted w _ ns hns hsp, absOf_cmd w]
  have hsplit : w.cwd ++ "cmd" :: ns = (w.cwd ++ ["cmd"]) ++ ns := by simp
  rw [hsplit]
  exact isPrefixOf_append_left (w.cwd ++ ["cmd"]) ns

/-- Witness for C5 at concrete inputs: `cd ..` at the root of the main
world leaves the Location at `cmd`, and the plain navigation sequence
`test`, `usb`, `..` stays inside the root tree. -/
theorem C5_amended_witness :
    (execute_cd Wcmd (initState Wcmd) "..").1.current_path = "cmd"
    ∧ List.isPrefixOf (absOf Wcmd "cmd")
        (absOf Wcmd (applyNavs Wcmd (initState Wcmd)
          [NavOp.into "test", NavOp.into "usb", NavOp.up]).current_path) = true :=
  ⟨C5_amended.1 Wcmd (initState Wcmd) rfl,
   C5_amended.2.2 Wcmd [NavOp.into "test", NavOp.into "usb", NavOp.up] (by decide)⟩

end CliShell
